import Mathlib

/-!
Verification of the timing-scoring engine of the drum-beat-visionary repository.

The embedding below translates the relevant TypeScript source into Lean:
  * DrumMachine.tsx (primary document): `updateTimingStats`, `detectInstrumentFromHit`,
    `onHitDetected`, the missed-beat sweep interval, `generateScheduledNotes`,
    `getAccuracyPercentage`.
  * SessionSummary.tsx: the derived `accuracyPercentage`.
  * useMicrophoneDetection.ts: `detectPercussiveHit`, `classifyAsHiHat`.
  * unnamed/part_002: the older `onHitDetected` variant (pure-discard behaviour for
    unmatched hits), used where a claim explicitly addresses that variant.

JavaScript numbers are modelled by exact rationals (ℚ); milliseconds stay
milliseconds where the source uses Date.now() arithmetic, seconds stay seconds.
-/

namespace DrumBeat

/- Core marks the rational field operations irreducible, which blocks `decide`
on concrete rational arithmetic; restore the default reducibility locally so
concrete states of the embedding can be evaluated in proofs. -/
attribute [local semireducible] Rat.inv Rat.add Rat.sub Rat.mul

/-- `ScheduledNote` record from DrumMachine.tsx. -/
structure ScheduledNote where
  time : ℚ
  instrument : String
  step : ℕ
  hit : Bool
  correct : Bool
  wrongInstrument : Bool
  slightlyOff : Bool
deriving Repr, DecidableEq

/-- `DetectedHit` record from useMicrophoneDetection.ts. -/
structure DetectedHit where
  time : ℚ
  frequency : ℚ
  amplitude : ℚ
  isHiHat : Bool
deriving Repr, DecidableEq

/-- `TimingStats` record from DrumMachine.tsx. -/
structure TimingStats where
  perfectHits : ℕ
  goodHits : ℕ
  missedHits : ℕ
  totalHits : ℕ
  currentStreak : ℕ
  bestStreak : ℕ
deriving Repr, DecidableEq

/-- The accuracy argument passed to `updateTimingStats`
('perfect' | 'good' | 'slightly-off' | 'miss'). -/
inductive Accuracy where
  | perfect
  | good
  | slightlyOff
  | miss
deriving Repr, DecidableEq

/-- `updateTimingStats` from DrumMachine.tsx (lines 199-232), restricted to the
`TimingStats` mutation (the session counters it also touches are UI state). -/
def updateTimingStats (accuracy : Accuracy) (prev : TimingStats) : TimingStats :=
  match accuracy with
  | Accuracy.perfect =>
      { prev with
        totalHits := prev.totalHits + 1
        perfectHits := prev.perfectHits + 1
        currentStreak := prev.currentStreak + 1
        bestStreak := max prev.bestStreak (prev.currentStreak + 1) }
  | Accuracy.good =>
      { prev with
        totalHits := prev.totalHits + 1
        goodHits := prev.goodHits + 1
        currentStreak := prev.currentStreak + 1
        bestStreak := max prev.bestStreak (prev.currentStreak + 1) }
  | _ =>
      { prev with
        totalHits := prev.totalHits + 1
        missedHits := prev.missedHits + 1
        currentStreak := 0 }

/-- `detectInstrumentFromHit` from DrumMachine.tsx (lines 271-284). -/
def detectInstrumentFromHit (hit : DetectedHit) : String :=
  if hit.isHiHat then
    if hit.frequency > 8000 then "openhat" else "hihat"
  else if hit.frequency < 100 ∧ hit.amplitude > 1/2 then "kick"
  else if hit.frequency > 100 ∧ hit.frequency < 1000 then "snare"
  else "unknown"

/-- ±25ms perfect-timing window (DrumMachine.tsx line 296). -/
def perfectWindow : ℚ := 1/40

/-- ±50ms good-timing window (DrumMachine.tsx line 297). -/
def goodWindow : ℚ := 1/20

/-- ±100ms acceptable-timing window (DrumMachine.tsx line 298). -/
def acceptableWindow : ℚ := 1/10

/-- ±0.05s perfect window of the part_002 variant. -/
def perfectWindow002 : ℚ := 1/20

/-- ±0.1s matching window of the part_002 variant. -/
def goodWindow002 : ℚ := 1/10

/-- `timeDiff < closestTimeDiff`, where `closestTimeDiff` starts at Infinity
(modelled by `none`). -/
def scanBetter (timeDiff : ℚ) : Option (ℕ × ℚ) → Bool
  | none => true
  | some q => decide (timeDiff < q.2)

/-- One iteration of the matching loop in `onHitDetected`: the running best
candidate is replaced when the current note is pending, within the window, and
strictly closer than the best so far. -/
def scanStep (w t : ℚ) (best : Option (ℕ × ℚ)) (p : ℕ × ScheduledNote) : Option (ℕ × ℚ) :=
  if |t - p.2.time| ≤ w ∧ p.2.hit = false ∧ scanBetter |t - p.2.time| best = true then
    some (p.1, |t - p.2.time|)
  else best

/-- The `for (const note of noteResults)` matching loop, carrying the list index
(the JS code holds an object reference; distinct list positions model distinct
object identities). -/
def scanFrom (w t : ℚ) : ℕ → Option (ℕ × ℚ) → List ScheduledNote → Option (ℕ × ℚ)
  | _, best, [] => best
  | i, best, n :: ns => scanFrom w t (i + 1) (scanStep w t best (i, n)) ns

/-- Result of the matching loop: index of `matchingNote` and `closestTimeDiff`. -/
def scanMatch (w t : ℚ) (notes : List ScheduledNote) : Option (ℕ × ℚ) :=
  scanFrom w t 0 none notes

/-- The per-note mutation of the matched note in `onHitDetected`
(DrumMachine.tsx lines 320-381), together with the accuracy label passed to
`updateTimingStats` in the same branch. -/
def applyHitToNote (detected : String) (d : ℚ) (note : ScheduledNote) :
    ScheduledNote × Accuracy :=
  if detected = note.instrument then
    if d ≤ perfectWindow then
      ({ note with hit := true, correct := true, wrongInstrument := false,
                   slightlyOff := false }, Accuracy.perfect)
    else if d ≤ goodWindow then
      ({ note with hit := true, correct := false, wrongInstrument := false,
                   slightlyOff := true }, Accuracy.good)
    else
      ({ note with hit := true, correct := false, wrongInstrument := false,
                   slightlyOff := true }, Accuracy.slightlyOff)
  else
    ({ note with hit := true, correct := false, wrongInstrument := true,
                 slightlyOff := false }, Accuracy.miss)

/-- `onHitDetected` from the primary DrumMachine.tsx document (lines 286-394),
restricted to its effect on the note results and the timing stats.  An
unmatched hit falls into the `else` branch, which records a miss. -/
def onHitDetected (hit : DetectedHit) (t : ℚ) (notes : List ScheduledNote)
    (stats : TimingStats) : List ScheduledNote × TimingStats :=
  let detected := detectInstrumentFromHit hit
  match scanMatch acceptableWindow t notes with
  | some (i, d) =>
      match notes.get? i with
      | some note =>
          let r := applyHitToNote detected d note
          (notes.set i r.1, updateTimingStats r.2 stats)
      | none => (notes, stats)
  | none => (notes, updateTimingStats Accuracy.miss stats)

/-- The matched-note mutation of the part_002 `onHitDetected` variant
(timing judged first, instrument only via `hit.isHiHat`). -/
def applyHitToNote002 (isHiHat : Bool) (d : ℚ) (note : ScheduledNote) : ScheduledNote :=
  if isHiHat then
    if d ≤ perfectWindow002 then
      { note with hit := true, correct := true, wrongInstrument := false, slightlyOff := false }
    else
      { note with hit := true, correct := false, wrongInstrument := false, slightlyOff := true }
  else
    { note with hit := true, correct := false, wrongInstrument := true, slightlyOff := false }

/-- `onHitDetected` from unnamed/part_002 (lines 67-171): an unmatched hit
only logs and toasts, mutating nothing (the pure-discard variant; that
component keeps no timing stats at all). -/
def onHitDetected002 (hit : DetectedHit) (t : ℚ) (notes : List ScheduledNote) :
    List ScheduledNote :=
  match scanMatch goodWindow002 t notes with
  | some (i, d) =>
      match notes.get? i with
      | some note => notes.set i (applyHitToNote002 hit.isHiHat d note)
      | none => notes
  | none => notes

/-- 100ms grace period of the missed-beat sweep (DrumMachine.tsx line 405). -/
def graceWindow : ℚ := 1/10

/-- The sweep refuses to mark notes older than 500ms (DrumMachine.tsx line 406:
"Don't mark very old notes as missed"). -/
def staleCutoff : ℚ := 1/2

/-- The filter predicate of the missed-beat sweep (DrumMachine.tsx lines 403-407). -/
def overduePending (t : ℚ) (n : ScheduledNote) : Bool :=
  !n.hit && decide (t > n.time + graceWindow) && decide (t < n.time + staleCutoff)

/-- How the sweep marks a missed note (DrumMachine.tsx lines 412-417). -/
def markMissed (n : ScheduledNote) : ScheduledNote :=
  { n with hit := true, correct := false, wrongInstrument := false, slightlyOff := false }

/-- One tick of the missed-beat sweep interval (DrumMachine.tsx lines 399-432):
collect the overdue pending notes, mark each of them, and record one miss per
marked note.  `missedNotes.includes(note)` compares object references, so the
map marks exactly the notes satisfying the filter predicate. -/
def sweep (t : ℚ) (notes : List ScheduledNote) (stats : TimingStats) :
    List ScheduledNote × TimingStats :=
  let missedNotes := notes.filter (overduePending t)
  if missedNotes.isEmpty then (notes, stats)
  else
    (notes.map (fun n => if overduePending t n then markMissed n else n),
     missedNotes.foldl (fun s _ => updateTimingStats Accuracy.miss s) stats)

/-- An event of the scoring engine: a detected hit processed at session time
`t`, or one sweep tick at session time `t`. -/
inductive Event where
  | hitEv : DetectedHit → ℚ → Event
  | sweepEv : ℚ → Event

/-- Apply one event to the shared (note results, timing stats) state. -/
def stepEv (s : List ScheduledNote × TimingStats) (e : Event) :
    List ScheduledNote × TimingStats :=
  match e with
  | Event.hitEv h t => onHitDetected h t s.1 s.2
  | Event.sweepEv t => sweep t s.1 s.2

/-- Run an arbitrary interleaving of hit-path and sweep-path calls. -/
def runEvents (s : List ScheduledNote × TimingStats) (evs : List Event) :
    List ScheduledNote × TimingStats :=
  evs.foldl stepEv s

/-- Number of result flags set on a note. -/
def flagCount (n : ScheduledNote) : ℕ :=
  (if n.correct then 1 else 0) + (if n.wrongInstrument then 1 else 0) +
    (if n.slightlyOff then 1 else 0)

/-- A fresh `ScheduledNote` as pushed by `generateScheduledNotes`
(DrumMachine.tsx lines 135-143). -/
def mkNote (inst : String) (stepIndex : ℕ) (stepDur : ℚ) : ScheduledNote :=
  { time := stepIndex * stepDur, instrument := inst, step := stepIndex,
    hit := false, correct := false, wrongInstrument := false, slightlyOff := false }

/-- Indices of the active steps of one instrument track, in step order,
starting from index `k`. -/
def activeStepsFrom (k : ℕ) : List Bool → List ℕ
  | [] => []
  | b :: bs =>
      if b then k :: activeStepsFrom (k + 1) bs else activeStepsFrom (k + 1) bs

/-- The notes one instrument track contributes, in step order. -/
def trackNotes (inst : String) (stepDur : ℚ) (steps : List Bool) : List ScheduledNote :=
  (activeStepsFrom 0 steps).map (fun i => mkNote inst i stepDur)

/-- The note list before sorting, in `Object.entries` enumeration order of the
pattern (JS string keys enumerate in insertion order). -/
def buildNotes (bpm : ℚ) : List (String × List Bool) → List ScheduledNote
  | [] => []
  | p :: ps => trackNotes p.1 (60 / bpm / 4) p.2 ++ buildNotes bpm ps

/-- Stable insertion of a note into a time-sorted list: the new note goes
before the first element it is not strictly later than. -/
def insertByTime (n : ScheduledNote) : List ScheduledNote → List ScheduledNote
  | [] => [n]
  | m :: ms => if n.time ≤ m.time then n :: m :: ms else m :: insertByTime n ms

/-- Stable sort by time.  `Array.prototype.sort` with comparator
`(a, b) => a.time - b.time` is a stable ascending sort by `time`
(ECMAScript 2019); a stable sort is uniquely determined by key order and input
order, so this insertion sort computes the same list. -/
def sortByTime : List ScheduledNote → List ScheduledNote
  | [] => []
  | n :: ns => insertByTime n (sortByTime ns)

/-- `generateScheduledNotes` from DrumMachine.tsx (lines 128-149). -/
def generateScheduledNotes (pattern : List (String × List Bool)) (bpm : ℚ) :
    List ScheduledNote :=
  sortByTime (buildNotes bpm pattern)

/-- The time-order relation used by the sort. -/
def timeLE (a b : ScheduledNote) : Prop := a.time ≤ b.time

/-- `Math.round` on a (finite, non-NaN) JS number: floor of x + 1/2. -/
def jsRound (x : ℚ) : ℤ := ⌊x + 1/2⌋

/-- `getAccuracyPercentage` from DrumMachine.tsx (lines 1052-1055).  Note the
zero-hit case returns 100. -/
def getAccuracyPercentage (s : TimingStats) : ℤ :=
  if s.totalHits = 0 then 100
  else jsRound (((s.perfectHits : ℚ) + (s.goodHits : ℚ)) / (s.totalHits : ℚ) * 100)

/-- The derived `accuracyPercentage` of SessionSummary.tsx (lines 43-45).
Note the zero-hit case returns 0. -/
def accuracyPercentageSummary (s : TimingStats) : ℤ :=
  if s.totalHits > 0 then
    jsRound (((s.perfectHits : ℚ) + (s.goodHits : ℚ)) / (s.totalHits : ℚ) * 100)
  else 0

/-- The accuracy formula in the words of the specification:
round(100 * (perfect + good) / total) when total > 0, else 0. -/
def claimedAccuracy (s : TimingStats) : ℤ :=
  if s.totalHits > 0 then
    jsRound (100 * (((s.perfectHits : ℚ) + (s.goodHits : ℚ)) / (s.totalHits : ℚ)))
  else 0

/-- Amplitude threshold of `detectPercussiveHit` (useMicrophoneDetection.ts
line 89). -/
def amplitudeThreshold : ℚ := 1/100

/-- Debounce interval of `detectPercussiveHit` in milliseconds
(useMicrophoneDetection.ts line 92). -/
def debounceMs : ℚ := 80

/-- The dominant-bin loop of `detectPercussiveHit` (lines 101-108), carrying
the current bin index and the best (bin, value) pair so far. -/
def domArgmaxFrom (i : ℕ) (best : ℕ × ℕ) : List ℕ → ℕ × ℕ
  | [] => best
  | e :: es => domArgmaxFrom (i + 1) (if e > best.2 then (i, e) else best) es

/-- First bin attaining the maximum byte magnitude; both `maxBin` and
`maxValue` start at 0. -/
def domArgmax (freqData : List ℕ) : ℕ × ℕ :=
  domArgmaxFrom 0 (0, 0) freqData

/-- `dominantFrequency = maxBin * sampleRate / (2 * length)`
(useMicrophoneDetection.ts line 111). -/
def dominantFrequency (freqData : List ℕ) (sampleRate : ℚ) : ℚ :=
  ((domArgmax freqData).1 : ℚ) * sampleRate / (2 * (freqData.length : ℚ))

/-- The accumulation loop of `classifyAsHiHat` (lines 133-148): high-band,
mid-band and total magnitude sums, where bin `i` sits at frequency
`i * binSize`.  The JS loop adds left to right; rational addition is
commutative and associative, so the recursion below computes the same sums. -/
def bandAccum (binSize : ℚ) : ℕ → List ℕ → ℚ × ℚ × ℚ
  | _, [] => (0, 0, 0)
  | i, e :: es =>
      let rest := bandAccum binSize (i + 1) es
      let frequency := (i : ℚ) * binSize
      ((if 4000 ≤ frequency ∧ frequency ≤ 15000 then (e : ℚ) else 0) + rest.1,
       (if 1000 ≤ frequency ∧ frequency ≤ 4000 then (e : ℚ) else 0) + rest.2.1,
       (e : ℚ) + rest.2.2)

/-- `binSize = sampleRate / (2 * frequencyData.length)` (line 127). -/
def binSize (freqData : List ℕ) (sampleRate : ℚ) : ℚ :=
  sampleRate / (2 * (freqData.length : ℚ))

/-- Total magnitude over all bins. -/
def totalEnergy (freqData : List ℕ) (sampleRate : ℚ) : ℚ :=
  (bandAccum (binSize freqData sampleRate) 0 freqData).2.2

/-- `highFreqRatio = totalEnergy > 0 ? highFreqEnergy / totalEnergy : 0`
(line 151). -/
def highFreqRatio (freqData : List ℕ) (sampleRate : ℚ) : ℚ :=
  let s := bandAccum (binSize freqData sampleRate) 0 freqData
  if s.2.2 > 0 then s.1 / s.2.2 else 0

/-- `midFreqRatio = totalEnergy > 0 ? midFreqEnergy / totalEnergy : 0`
(line 152). -/
def midFreqRatio (freqData : List ℕ) (sampleRate : ℚ) : ℚ :=
  let s := bandAccum (binSize freqData sampleRate) 0 freqData
  if s.2.2 > 0 then s.2.1 / s.2.2 else 0

/-- `classifyAsHiHat` (useMicrophoneDetection.ts lines 124-158). -/
def classifyAsHiHat (freqData : List ℕ) (sampleRate : ℚ) : Bool :=
  decide (highFreqRatio freqData sampleRate > 1/4 ∨
    (highFreqRatio freqData sampleRate > 3/20 ∧ midFreqRatio freqData sampleRate > 3/10))

/-- Mutable detector state: `lastHitTimeRef` (useMicrophoneDetection.ts
line 25), in milliseconds since the epoch, initialised to 0. -/
structure DetectorState where
  lastHitTime : ℚ
deriving Repr, DecidableEq

/-- `detectPercussiveHit` (useMicrophoneDetection.ts lines 72-122) for one
analysis frame: `rms` is the frame's RMS amplitude, `currentTime` the
`Date.now()` timestamp in milliseconds.  Returns the emitted hit (if any) and
the updated detector state. -/
def detectPercussiveHit (rms currentTime : ℚ) (freqData : List ℕ) (sampleRate : ℚ)
    (st : DetectorState) : Option DetectedHit × DetectorState :=
  if rms > amplitudeThreshold ∧ currentTime - st.lastHitTime > debounceMs then
    (some { time := currentTime,
            frequency := dominantFrequency freqData sampleRate,
            amplitude := rms,
            isHiHat := classifyAsHiHat freqData sampleRate },
     { lastHitTime := currentTime })
  else (none, st)

/-- All-zero timing stats, the session-start value (DrumMachine.tsx 65-72). -/
def zeroStats : TimingStats := ⟨0, 0, 0, 0, 0, 0⟩

/-- A pending note at time 0 used for concrete evaluations. -/
def exNote : ScheduledNote := ⟨0, "hihat", 0, false, false, false, false⟩

/-- The fixed Hi-Hat schedule of unnamed/part_002 (lines 39-44):
times 0.25, 0.73, 1.22, 1.70. -/
def schedule002 : List ScheduledNote :=
  [⟨1/4, "Hi-Hat", 2, false, false, false, false⟩,
   ⟨73/100, "Hi-Hat", 6, false, false, false, false⟩,
   ⟨61/50, "Hi-Hat", 10, false, false, false, false⟩,
   ⟨17/10, "Hi-Hat", 14, false, false, false, false⟩]

/-- A pending hihat note at 0.25s used for concrete evaluations. -/
def exHitNote : ScheduledNote := ⟨1/4, "hihat", 2, false, false, false, false⟩

/-- A detected hit that the banded classifier maps to "hihat". -/
def exHit : DetectedHit := ⟨0, 5000, 1/5, true⟩

/-- `exHitNote` after a perfect evaluation. -/
def exHitNoteDone : ScheduledNote := ⟨1/4, "hihat", 2, true, true, false, false⟩

/-- Claim C10: every call to `updateTimingStats` increments `totalHits` by 1;
every accuracy other than perfect and good increments `missedHits` and resets
`currentStreak` to 0; the slightly-off accuracy is processed identically to a
miss; and a matched correct-instrument hit beyond the good window is labelled
slightly-off by the hit path. -/
theorem claimC10_slightly_off_counts_as_miss :
    (∀ accuracy s, (updateTimingStats accuracy s).totalHits = s.totalHits + 1) ∧
    (∀ accuracy s, accuracy ≠ Accuracy.perfect → accuracy ≠ Accuracy.good →
      (updateTimingStats accuracy s).missedHits = s.missedHits + 1 ∧
      (updateTimingStats accuracy s).currentStreak = 0) ∧
    (∀ s, updateTimingStats Accuracy.slightlyOff s = updateTimingStats Accuracy.miss s) ∧
    (∀ detected d note, detected = note.instrument → goodWindow < d →
      (applyHitToNote detected d note).2 = Accuracy.slightlyOff) := by
  refine ⟨?_, ?_, ?_, ?_⟩
  · intro accuracy s
    cases accuracy <;> rfl
  · intro accuracy s h1 h2
    cases accuracy
    · exact absurd rfl h1
    · exact absurd rfl h2
    · exact ⟨rfl, rfl⟩
    · exact ⟨rfl, rfl⟩
  · intro s
    rfl
  · intro detected d note hinst hd
    have hg : ¬ d ≤ goodWindow := not_le.mpr hd
    have hp : ¬ d ≤ perfectWindow := fun hle =>
      hg (le_trans hle (by norm_num [perfectWindow, goodWindow]))
    simp [applyHitToNote, hinst, hp, hg]

/-- Witness for C10 at concrete inputs. -/
theorem claimC10_witness :
    ((updateTimingStats Accuracy.slightlyOff zeroStats).missedHits = zeroStats.missedHits + 1 ∧
     (updateTimingStats Accuracy.slightlyOff zeroStats).currentStreak = 0) ∧
    (applyHitToNote "hihat" (6/100) exHitNote).2 = Accuracy.slightlyOff :=
  ⟨claimC10_slightly_off_counts_as_miss.2.1 Accuracy.slightlyOff zeroStats
      (by decide) (by decide),
   claimC10_slightly_off_counts_as_miss.2.2.2 "hihat" (6/100) exHitNote rfl
      (by norm_num [goodWindow])⟩

/-- Claim C4 (amended): SessionSummary's derived accuracy equals
round(100·(perfect+good)/total) for total > 0 and 0 for total = 0, exactly as
claimed; DrumMachine's `getAccuracyPercentage` agrees for total > 0 but
returns 100, not 0, when total = 0. -/
theorem claimC4_accuracy_formula :
    ∀ s : TimingStats,
      accuracyPercentageSummary s = claimedAccuracy s ∧
      (0 < s.totalHits → getAccuracyPercentage s = claimedAccuracy s) ∧
      (s.totalHits = 0 → getAccuracyPercentage s = 100 ∧ claimedAccuracy s = 0) := by
  intro s
  refine ⟨?_, ?_, ?_⟩
  · unfold accuracyPercentageSummary claimedAccuracy
    by_cases h : 0 < s.totalHits
    · rw [if_pos h, if_pos h, mul_comm]
    · rw [if_neg h, if_neg h]
  · intro h
    unfold getAccuracyPercentage claimedAccuracy
    rw [if_neg (Nat.pos_iff_ne_zero.mp h), if_pos h, mul_comm]
  · intro h
    unfold getAccuracyPercentage claimedAccuracy
    rw [if_pos h, if_neg (by omega)]
    exact ⟨rfl, rfl⟩

/-- Witness for C4 at concrete stats. -/
theorem claimC4_witness :
    0 < (⟨1, 1, 1, 3, 0, 1⟩ : TimingStats).totalHits ∧
    getAccuracyPercentage ⟨1, 1, 1, 3, 0, 1⟩ = claimedAccuracy ⟨1, 1, 1, 3, 0, 1⟩ :=
  ⟨by decide, (claimC4_accuracy_formula ⟨1, 1, 1, 3, 0, 1⟩).2.1 (by decide)⟩

/-- Counterexample for C4 as stated: with zero total hits,
`getAccuracyPercentage` returns 100, not the claimed 0. -/
theorem claimC4_counterexample :
    zeroStats.totalHits = 0 ∧ getAccuracyPercentage zeroStats = 100 ∧ (100 : ℤ) ≠ 0 :=
  ⟨rfl, by decide, by decide⟩

/-- Claim C7: `detectPercussiveHit` emits a hit iff the frame's RMS exceeds
the 0.01 amplitude threshold strictly and the time since the last emitted hit
strictly exceeds the 80ms (0.08s) debounce; an emitted hit carries the frame's
time, RMS, dominant frequency and classifier verdict and updates
`lastHitTime` to the current time; a suppressed frame leaves the detector
state unchanged. -/
theorem claimC7_onset_emission :
    ∀ rms t freqData sampleRate st,
      ((detectPercussiveHit rms t freqData sampleRate st).1.isSome ↔
        (rms > amplitudeThreshold ∧ t - st.lastHitTime > debounceMs)) ∧
      (∀ h, (detectPercussiveHit rms t freqData sampleRate st).1 = some h →
        h.time = t ∧ h.amplitude = rms ∧
        h.frequency = dominantFrequency freqData sampleRate ∧
        h.isHiHat = classifyAsHiHat freqData sampleRate ∧
        (detectPercussiveHit rms t freqData sampleRate st).2.lastHitTime = t) ∧
      ((detectPercussiveHit rms t freqData sampleRate st).1 = none →
        (detectPercussiveHit rms t freqData sampleRate st).2 = st) := by
  intro rms t freqData sampleRate st
  unfold detectPercussiveHit
  by_cases hc : rms > amplitudeThreshold ∧ t - st.lastHitTime > debounceMs
  · rw [if_pos hc]
    refine ⟨by simpa using hc, ?_, ?_⟩
    · intro h hh
      cases hh
      exact ⟨rfl, rfl, rfl, rfl, rfl⟩
    · intro hnone
      cases hnone
  · rw [if_neg hc]
    refine ⟨by simpa using hc, ?_, fun _ => rfl⟩
    intro h hh
    cases hh

/-- Witness for C7: an emitting frame and a suppressed frame. -/
theorem claimC7_witness :
    ((detectPercussiveHit (1/2) 1000 [] 44100 ⟨0⟩).1.isSome) ∧
    ((detectPercussiveHit 0 1000 [] 44100 ⟨0⟩).2 = (⟨0⟩ : DetectorState)) :=
  ⟨(claimC7_onset_emission (1/2) 1000 [] 44100 ⟨0⟩).1.mpr
      (by norm_num [amplitudeThreshold, debounceMs]),
   (claimC7_onset_emission 0 1000 [] 44100 ⟨0⟩).2.2 (by decide)⟩

/-- The third accumulator of `bandAccum` is the total magnitude over all bins. -/
theorem bandAccum_total (bs : ℚ) (l : List ℕ) :
    ∀ i : ℕ, (bandAccum bs i l).2.2 = (l.map (fun e => (e : ℚ))).sum := by
  induction l with
  | nil => intro i; rfl
  | cons e es ih => intro i; simp [bandAccum, ih (i + 1)]

/-- Claim C8: `classifyAsHiHat` returns true exactly when
highFreqRatio > 0.25, or highFreqRatio > 0.15 and midFreqRatio > 0.3; both
ratios are 0 whenever the total magnitude is 0; and the total magnitude is the
sum over all bins. -/
theorem claimC8_hihat_classification :
    ∀ (freqData : List ℕ) (sampleRate : ℚ),
      (classifyAsHiHat freqData sampleRate = true ↔
        (highFreqRatio freqData sampleRate > 1/4 ∨
          (highFreqRatio freqData sampleRate > 3/20 ∧
           midFreqRatio freqData sampleRate > 3/10))) ∧
      (totalEnergy freqData sampleRate = 0 →
        highFreqRatio freqData sampleRate = 0 ∧ midFreqRatio freqData sampleRate = 0) ∧
      totalEnergy freqData sampleRate = (freqData.map (fun e => (e : ℚ))).sum := by
  intro freqData sampleRate
  refine ⟨?_, ?_, bandAccum_total _ freqData 0⟩
  · unfold classifyAsHiHat
    exact decide_eq_true_iff
  · intro h
    have hz : ¬ (bandAccum (binSize freqData sampleRate) 0 freqData).2.2 > 0 := by
      rw [show (bandAccum (binSize freqData sampleRate) 0 freqData).2.2 =
        totalEnergy freqData sampleRate from rfl, h]
      exact lt_irrefl 0
    exact ⟨by simp [highFreqRatio, hz], by simp [midFreqRatio, hz]⟩

/-- Witness for C8: the empty spectrum has zero total magnitude and both
ratios are 0. -/
theorem claimC8_witness :
    totalEnergy [] 44100 = 0 ∧ highFreqRatio [] 44100 = 0 ∧ midFreqRatio [] 44100 = 0 :=
  ⟨rfl, ((claimC8_hihat_classification [] 44100).2.1 rfl).1,
    ((claimC8_hihat_classification [] 44100).2.1 rfl).2⟩

/-- Soundness of one matching-loop iteration and of the whole loop: whatever
the loop returns was justified either by the initial candidate or by a
pending in-window note of the list. -/
theorem scanFrom_sound (w t : ℚ) (notes : List ScheduledNote) :
    ∀ (k : ℕ) (init : Option (ℕ × ℚ)) (P : ℕ → ℚ → Prop),
      (∀ i d, init = some (i, d) → P i d) →
      (∀ j n, notes.get? j = some n → n.hit = false → |t - n.time| ≤ w →
        P (k + j) |t - n.time|) →
      ∀ i d, scanFrom w t k init notes = some (i, d) → P i d := by
  induction notes with
  | nil =>
      intro k init P hinit _ i d h
      exact hinit i d h
  | cons n ns ih =>
      intro k init P hinit hl i d h
      refine ih (k + 1) (scanStep w t init (k, n)) P ?_ ?_ i d h
      · intro i' d' h'
        unfold scanStep at h'
        split at h'
        · next hc =>
            cases h'
            have := hl 0 n rfl hc.2.1 hc.1
            simpa using this
        · exact hinit i' d' h'
      · intro j m hj hm hle
        have := hl (j + 1) m (by simpa using hj) hm hle
        have harith : k + (j + 1) = (k + 1) + j := by omega
        rwa [harith] at this

/-- If the matching loop selects index `i` with difference `d`, then the note
at index `i` is pending, `d` is its absolute time difference, and `d` lies
within the window. -/
theorem scanMatch_sound (w t : ℚ) (notes : List ScheduledNote) (i : ℕ) (d : ℚ)
    (h : scanMatch w t notes = some (i, d)) :
    ∃ n, notes.get? i = some n ∧ n.hit = false ∧ d = |t - n.time| ∧ d ≤ w := by
  refine scanFrom_sound w t notes 0 none
    (fun i d => ∃ n, notes.get? i = some n ∧ n.hit = false ∧ d = |t - n.time| ∧ d ≤ w)
    ?_ ?_ i d h
  · intro i' d' h'
    cases h'
  · intro j n hj hh hle
    refine ⟨n, ?_, hh, rfl, hle⟩
    rwa [Nat.zero_add]

/-- If no pending note lies within the window, the matching loop returns
nothing. -/
theorem scanMatch_none (w t : ℚ) (notes : List ScheduledNote)
    (h : ∀ n ∈ notes, n.hit = false → ¬ |t - n.time| ≤ w) :
    scanMatch w t notes = none := by
  cases hm : scanMatch w t notes with
  | none => rfl
  | some p =>
      obtain ⟨n, hget, hhit, hd, hle⟩ :=
        scanMatch_sound w t notes p.1 p.2 (by simpa using hm)
      rw [hd] at hle
      exact absurd hle (h n (List.get?_mem hget) hhit)

/-- Claim C3 (amended): a hit with no pending note inside the acceptable
window mutates no scheduled note, but in the primary DrumMachine variant it
does touch the stats: it is recorded as a miss.  In the part_002 variant the
hit is discarded outright, mutating nothing. -/
theorem claimC3_unmatched_hit :
    (∀ hit t notes stats,
      (∀ n ∈ notes, n.hit = false → ¬ |t - n.time| ≤ acceptableWindow) →
      onHitDetected hit t notes stats = (notes, updateTimingStats Accuracy.miss stats)) ∧
    (∀ hit t notes,
      (∀ n ∈ notes, n.hit = false → ¬ |t - n.time| ≤ goodWindow002) →
      onHitDetected002 hit t notes = notes) := by
  constructor
  · intro hit t notes stats h
    unfold onHitDetected
    rw [scanMatch_none _ _ _ h]
  · intro hit t notes h
    unfold onHitDetected002
    rw [scanMatch_none _ _ _ h]

/-- Counterexample for C3 as stated: with the part_002 schedule and a hit at
t = 0.40 (more than 0.1s away from every pending note), the primary variant
leaves every note untouched but increments the timing stats (totalHits and
missedHits go from 0 to 1), so the stats do not stay unchanged. -/
theorem claimC3_counterexample :
    (schedule002.all fun n => !n.hit && decide (acceptableWindow < |2/5 - n.time|)) = true ∧
    (onHitDetected ⟨2/5, 9000, 1/10, true⟩ (2/5) schedule002 zeroStats).1 = schedule002 ∧
    (onHitDetected ⟨2/5, 9000, 1/10, true⟩ (2/5) schedule002 zeroStats).2.totalHits = 1 ∧
    (onHitDetected ⟨2/5, 9000, 1/10, true⟩ (2/5) schedule002 zeroStats).2.missedHits = 1 ∧
    zeroStats.totalHits = 0 ∧ zeroStats.missedHits = 0 := by
  refine ⟨by decide, by decide, by decide, by decide, rfl, rfl⟩

/-- Witness for C3 at the concrete schedule and hit of the claim. -/
theorem claimC3_witness :
    onHitDetected ⟨2/5, 9000, 1/10, true⟩ (2/5) schedule002 zeroStats =
      (schedule002, updateTimingStats Accuracy.miss zeroStats) :=
  claimC3_unmatched_hit.1 ⟨2/5, 9000, 1/10, true⟩ (2/5) schedule002 zeroStats (by decide)

/-- A fold that ignores its list elements iterates the function once per
element. -/
theorem foldl_const_iterate {α β : Type} (f : α → α) (l : List β) :
    ∀ init : α, l.foldl (fun s _ => f s) init = f^[l.length] init := by
  induction l with
  | nil => intro init; rfl
  | cons b bs ih =>
      intro init
      rw [List.foldl_cons, ih (f init), List.length_cons, Function.iterate_succ_apply]

/-- Recording `k` misses adds `k` to both `missedHits` and `totalHits`. -/
theorem iterate_miss_stats (k : ℕ) :
    ∀ s : TimingStats,
      ((updateTimingStats Accuracy.miss)^[k] s).missedHits = s.missedHits + k ∧
      ((updateTimingStats Accuracy.miss)^[k] s).totalHits = s.totalHits + k := by
  induction k with
  | zero => intro s; simp
  | succ k ih =>
      intro s
      rw [Function.iterate_succ_apply]
      have h := ih (updateTimingStats Accuracy.miss s)
      constructor
      · rw [h.1]
        show s.missedHits + 1 + k = s.missedHits + (k + 1)
        omega
      · rw [h.2]
        show s.totalHits + 1 + k = s.totalHits + (k + 1)
        omega

/-- Per-index effect of one sweep tick: a note is replaced by its
missed-marked copy exactly when the sweep predicate selects it. -/
theorem sweep_get? (t : ℚ) (notes : List ScheduledNote) (stats : TimingStats)
    (i : ℕ) (n : ScheduledNote) (hget : notes.get? i = some n) :
    (sweep t notes stats).1.get? i =
      some (if overduePending t n then markMissed n else n) := by
  unfold sweep
  by_cases hemp : (notes.filter (overduePending t)).isEmpty
  · rw [if_pos hemp]
    have hall : ∀ m ∈ notes, ¬ overduePending t m = true :=
      List.filter_eq_nil_iff.mp (List.isEmpty_iff.mp hemp)
    have hn := hall n (List.get?_mem hget)
    rw [if_neg hn]
    exact hget
  · rw [if_neg hemp]
    rw [List.get?_map, hget]
    rfl

/-- Stats effect of one sweep tick: one recorded miss per selected note. -/
theorem sweep_stats (t : ℚ) (notes : List ScheduledNote) (stats : TimingStats) :
    (sweep t notes stats).2 =
      (updateTimingStats Accuracy.miss)^[notes.countP (overduePending t)] stats := by
  unfold sweep
  by_cases hemp : (notes.filter (overduePending t)).isEmpty
  · rw [if_pos hemp]
    have : notes.countP (overduePending t) = 0 := by
      rw [List.countP_eq_length_filter, List.isEmpty_iff.mp hemp]
      rfl
    rw [this]
    rfl
  · rw [if_neg hemp]
    rw [foldl_const_iterate, List.countP_eq_length_filter]

/-- Claim C2 (amended): one sweep tick marks as missed exactly the pending
notes with now > time + 0.1 AND now < time + 0.5 (all three result flags
false, hit set true), records exactly one miss outcome per such note, and
leaves every other note — including pending notes staler than the 0.5s
cutoff — untouched. -/
theorem claimC2_sweep_marks_within_cutoff :
    ∀ t notes stats,
      (∀ i n, notes.get? i = some n →
        (sweep t notes stats).1.get? i =
          some (if overduePending t n then markMissed n else n)) ∧
      (sweep t notes stats).2.missedHits =
        stats.missedHits + notes.countP (overduePending t) ∧
      (sweep t notes stats).2.totalHits =
        stats.totalHits + notes.countP (overduePending t) := by
  intro t notes stats
  refine ⟨fun i n hget => sweep_get? t notes stats i n hget, ?_, ?_⟩
  · rw [sweep_stats]
    exact (iterate_miss_stats (notes.countP (overduePending t)) stats).1
  · rw [sweep_stats]
    exact (iterate_miss_stats (notes.countP (overduePending t)) stats).2

/-- Counterexample for C2 as stated: a pending note at time 0, swept at
now = 1s.  The note is overdue by the claim's criterion (1 > 0 + 0.1), yet
the sweep marks nothing and emits no missed outcome, because of the
"don't mark very old notes" cutoff (1 ≥ 0 + 0.5). -/
theorem claimC2_counterexample :
    exNote.hit = false ∧ (1 : ℚ) > exNote.time + graceWindow ∧
    sweep 1 [exNote] zeroStats = ([exNote], zeroStats) := by
  exact ⟨rfl, by norm_num [exNote, graceWindow], by decide⟩

/-- Witness for C2: a note inside the (0.1, 0.5) overdue band is marked. -/
theorem claimC2_witness :
    (sweep (3/10) [exNote] zeroStats).1.get? 0 = some (markMissed exNote) := by
  have h := (claimC2_sweep_marks_within_cutoff (3/10) [exNote] zeroStats).1 0 exNote rfl
  rwa [if_pos (by decide)] at h

/-- Case analysis of the hit path: either some pending in-window note is
selected and rewritten through `applyHitToNote`, or the hit is recorded as a
plain miss with no note mutation. -/
theorem onHitDetected_cases (hit : DetectedHit) (t : ℚ) (notes : List ScheduledNote)
    (stats : TimingStats) :
    (∃ i d note,
      notes.get? i = some note ∧ note.hit = false ∧ d = |t - note.time| ∧
      d ≤ acceptableWindow ∧
      onHitDetected hit t notes stats =
        (notes.set i (applyHitToNote (detectInstrumentFromHit hit) d note).1,
         updateTimingStats (applyHitToNote (detectInstrumentFromHit hit) d note).2 stats)) ∨
    onHitDetected hit t notes stats = (notes, updateTimingStats Accuracy.miss stats) := by
  unfold onHitDetected
  cases hm : scanMatch acceptableWindow t notes with
  | none => exact Or.inr rfl
  | some p =>
      obtain ⟨i, d⟩ := p
      obtain ⟨note, hget, hhit, hd, hle⟩ :=
        scanMatch_sound _ _ _ i d hm
      left
      refine ⟨i, d, note, hget, hhit, hd, hle, ?_⟩
      dsimp only
      rw [hget]

/-- Claim C1: whenever the hit path turns a note's `correct` flag on, the
hit's inferred instrument equals the note's instrument and the hit's absolute
timing difference is within the perfect window; the sweep path never turns
`correct` on. -/
theorem claimC1_correct_implies_matched_perfect :
    (∀ hit t notes stats i n nAfter,
      notes.get? i = some n →
      (onHitDetected hit t notes stats).1.get? i = some nAfter →
      n.correct = false → nAfter.correct = true →
      detectInstrumentFromHit hit = n.instrument ∧ |t - n.time| ≤ perfectWindow ∧
      nAfter.instrument = n.instrument ∧ nAfter.time = n.time) ∧
    (∀ t notes stats i n nAfter,
      notes.get? i = some n →
      (sweep t notes stats).1.get? i = some nAfter →
      nAfter.correct = true → n.correct = true) := by
  constructor
  · intro hit t notes stats i n nAfter hget hafter hnc hac
    rcases onHitDetected_cases hit t notes stats with
      ⟨j, d, note, hgetj, hpend, hd, hle, heq⟩ | heq
    · rw [heq] at hafter
      dsimp only at hafter
      by_cases hij : j = i
      · subst hij
        rw [List.get?_set_eq, hget] at hafter
        rw [hget] at hgetj
        cases Option.some.inj hgetj
        simp only [Option.map_eq_map, Option.map_some'] at hafter
        have hx := Option.some.inj hafter
        rw [← hx] at hac ⊢
        by_cases h1 : detectInstrumentFromHit hit = n.instrument
        · by_cases h2 : d ≤ perfectWindow
          · refine ⟨h1, by rwa [hd] at h2, ?_, ?_⟩ <;> simp [applyHitToNote, h1, h2]
          · by_cases h3 : d ≤ goodWindow
            · simp [applyHitToNote, h1, h2, h3] at hac
            · simp [applyHitToNote, h1, h2, h3] at hac
        · simp [applyHitToNote, h1] at hac
      · rw [List.get?_set_ne _ _ hij, hget] at hafter
        cases Option.some.inj hafter
        rw [hnc] at hac
        cases hac
    · rw [heq] at hafter
      dsimp only at hafter
      rw [hget] at hafter
      cases Option.some.inj hafter
      rw [hnc] at hac
      cases hac
  · intro t notes stats i n nAfter hget hafter hac
    rw [sweep_get? t notes stats i n hget] at hafter
    have hx := Option.some.inj hafter
    by_cases hp : overduePending t n = true
    · rw [if_pos hp] at hx
      rw [← hx] at hac
      simp [markMissed] at hac
    · rw [if_neg hp] at hx
      rw [hx]
      exact hac

/-- Witness for C1: a hihat hit 0.01s after a scheduled hihat note is marked
correct, and the conclusions hold at that input. -/
theorem claimC1_witness :
    detectInstrumentFromHit exHit = exHitNote.instrument ∧
    |(13/50 : ℚ) - exHitNote.time| ≤ perfectWindow ∧
    exHitNoteDone.instrument = exHitNote.instrument ∧
    exHitNoteDone.time = exHitNote.time :=
  claimC1_correct_implies_matched_perfect.1 exHit (13/50) [exHitNote] zeroStats 0
    exHitNote exHitNoteDone rfl (by decide) rfl rfl

/-- Every branch of the hit path marks the selected note as evaluated. -/
theorem applyHitToNote_hit (detected : String) (d : ℚ) (note : ScheduledNote) :
    (applyHitToNote detected d note).1.hit = true := by
  unfold applyHitToNote
  split_ifs <;> rfl

/-- The sweep keeps a missing index missing. -/
theorem sweep_get?_none (t : ℚ) (notes : List ScheduledNote) (stats : TimingStats)
    (i : ℕ) (h : notes.get? i = none) : (sweep t notes stats).1.get? i = none := by
  unfold sweep
  by_cases hemp : (notes.filter (overduePending t)).isEmpty
  · rw [if_pos hemp]
    exact h
  · rw [if_neg hemp]
    rw [List.get?_map, h]
    rfl

/-- One step of either path leaves an already-evaluated note untouched. -/
theorem stepEv_preserves_evaluated (s : List ScheduledNote × TimingStats) (e : Event)
    (i : ℕ) (n : ScheduledNote) (hget : s.1.get? i = some n) (hhit : n.hit = true) :
    (stepEv s e).1.get? i = some n := by
  cases e with
  | hitEv h t =>
      show (onHitDetected h t s.1 s.2).1.get? i = some n
      rcases onHitDetected_cases h t s.1 s.2 with
        ⟨j, d, note, hgetj, hpend, hd, hle, heq⟩ | heq
      · rw [heq]
        dsimp only
        by_cases hij : j = i
        · subst hij
          rw [hgetj] at hget
          cases Option.some.inj hget
          rw [hpend] at hhit
          cases hhit
        · rw [List.get?_set_ne _ _ hij]
          exact hget
      · rw [heq]
        exact hget
  | sweepEv t =>
      show (sweep t s.1 s.2).1.get? i = some n
      rw [sweep_get? t s.1 s.2 i n hget]
      have hp : overduePending t n = false := by simp [overduePending, hhit]
      simp [hp]

/-- An already-evaluated note survives any interleaving unchanged. -/
theorem runEvents_preserves_evaluated (evs : List Event) :
    ∀ (s : List ScheduledNote × TimingStats) (i : ℕ) (n : ScheduledNote),
      s.1.get? i = some n → n.hit = true → (runEvents s evs).1.get? i = some n := by
  induction evs with
  | nil =>
      intro s i n h _
      exact h
  | cons e es ih =>
      intro s i n h hh
      exact ih (stepEv s e) i n (stepEv_preserves_evaluated s e i n h hh) hh

/-- Any note a step rewrites comes out evaluated. -/
theorem stepEv_writes_evaluated (s : List ScheduledNote × TimingStats) (e : Event)
    (i : ℕ) (nAfter : ScheduledNote) (h : (stepEv s e).1.get? i = some nAfter) :
    nAfter.hit = true ∨ s.1.get? i = some nAfter := by
  cases e with
  | hitEv hd t =>
      rcases onHitDetected_cases hd t s.1 s.2 with
        ⟨j, d, note, hgetj, hpend, hdiff, hle, heq⟩ | heq
      · replace h : (onHitDetected hd t s.1 s.2).1.get? i = some nAfter := h
        rw [heq] at h
        dsimp only at h
        by_cases hij : j = i
        · subst hij
          rw [List.get?_set_eq, hgetj] at h
          simp only [Option.map_eq_map, Option.map_some'] at h
          left
          rw [← Option.some.inj h]
          exact applyHitToNote_hit _ _ _
        · rw [List.get?_set_ne _ _ hij] at h
          exact Or.inr h
      · replace h : (onHitDetected hd t s.1 s.2).1.get? i = some nAfter := h
        rw [heq] at h
        exact Or.inr h
  | sweepEv t =>
      replace h : (sweep t s.1 s.2).1.get? i = some nAfter := h
      cases hm : s.1.get? i with
      | none =>
          rw [sweep_get?_none t s.1 s.2 i hm] at h
          cases h
      | some m =>
          rw [sweep_get? t s.1 s.2 i m hm] at h
          have hx := Option.some.inj h
          by_cases hp : overduePending t m = true
          · rw [if_pos hp] at hx
            exact Or.inl (hx ▸ rfl)
          · rw [if_neg hp] at hx
            refine Or.inr ?_
            rw [← hx]

/-- A sweep on a schedule with no overdue pending note changes nothing. -/
theorem sweep_no_overdue (t : ℚ) (notes : List ScheduledNote) (stats : TimingStats)
    (h : ∀ x ∈ notes, overduePending t x = false) :
    sweep t notes stats = (notes, stats) := by
  have hfil : notes.filter (overduePending t) = [] :=
    List.filter_eq_nil_iff.mpr (fun a ha => by simp [h a ha])
  simp [sweep, hfil]

/-- After one sweep, no note of the result is still overdue-pending at the
same instant. -/
theorem sweep_result_not_overdue (t : ℚ) (notes : List ScheduledNote)
    (stats : TimingStats) :
    ∀ x ∈ (sweep t notes stats).1, overduePending t x = false := by
  intro x hx
  unfold sweep at hx
  by_cases hemp : (notes.filter (overduePending t)).isEmpty
  · rw [if_pos hemp] at hx
    have hall := List.filter_eq_nil_iff.mp (List.isEmpty_iff.mp hemp)
    simpa using hall x hx
  · rw [if_neg hemp] at hx
    obtain ⟨m, hm, hxm⟩ := List.mem_map.mp hx
    by_cases hp : overduePending t m = true
    · rw [if_pos hp] at hxm
      rw [← hxm]
      simp [overduePending, markMissed]
    · rw [if_neg hp] at hxm
      rw [← hxm]
      simpa using hp

/-- Claim C5: an evaluated note is frozen across any interleaving of hit-path
and sweep-path calls (so `hit` flips false→true at most once); any note a
step does rewrite comes out evaluated; and the sweep is idempotent — a second
sweep at the same instant changes neither the notes nor the stats (no
double-counted misses). -/
theorem claimC5_single_evaluation :
    (∀ (s : List ScheduledNote × TimingStats) (evs : List Event) (i : ℕ)
        (n : ScheduledNote),
      s.1.get? i = some n → n.hit = true → (runEvents s evs).1.get? i = some n) ∧
    (∀ (s : List ScheduledNote × TimingStats) (e : Event) (i : ℕ)
        (nAfter : ScheduledNote),
      (stepEv s e).1.get? i = some nAfter →
      nAfter.hit = true ∨ s.1.get? i = some nAfter) ∧
    (∀ (t : ℚ) (notes : List ScheduledNote) (stats : TimingStats),
      sweep t (sweep t notes stats).1 (sweep t notes stats).2 = sweep t notes stats) := by
  refine ⟨?_, ?_, ?_⟩
  · intro s evs i n h hh
    exact runEvents_preserves_evaluated evs s i n h hh
  · intro s e i nAfter h
    exact stepEv_writes_evaluated s e i nAfter h
  · intro t notes stats
    exact sweep_no_overdue t _ _ (sweep_result_not_overdue t notes stats)

/-- Witness for C5: an evaluated note survives a sweep unchanged. -/
theorem claimC5_witness :
    (runEvents ([exHitNoteDone], zeroStats) [Event.sweepEv (3/10)]).1.get? 0 =
      some exHitNoteDone :=
  claimC5_single_evaluation.1 ([exHitNoteDone], zeroStats) [Event.sweepEv (3/10)] 0
    exHitNoteDone rfl rfl

/-- Every branch of the hit path sets at most one result flag. -/
theorem applyHitToNote_flagCount (detected : String) (d : ℚ) (note : ScheduledNote) :
    flagCount (applyHitToNote detected d note).1 ≤ 1 := by
  unfold applyHitToNote flagCount
  split_ifs <;> simp_all

/-- Membership in a sweep result: every note is either an original or a
missed-marked original. -/
theorem mem_sweep_result (t : ℚ) (notes : List ScheduledNote) (stats : TimingStats)
    (x : ScheduledNote) (hx : x ∈ (sweep t notes stats).1) :
    x ∈ notes ∨ ∃ m ∈ notes, x = markMissed m := by
  unfold sweep at hx
  by_cases hemp : (notes.filter (overduePending t)).isEmpty
  · rw [if_pos hemp] at hx
    exact Or.inl hx
  · rw [if_neg hemp] at hx
    obtain ⟨m, hm, hxm⟩ := List.mem_map.mp hx
    by_cases hp : overduePending t m = true
    · rw [if_pos hp] at hxm
      exact Or.inr ⟨m, hm, hxm.symm⟩
    · rw [if_neg hp] at hxm
      exact Or.inl (hxm ▸ hm)

/-- One step preserves the at-most-one-flag invariant. -/
theorem stepEv_flagCount (s : List ScheduledNote × TimingStats) (e : Event)
    (hinv : ∀ n ∈ s.1, flagCount n ≤ 1) :
    ∀ n ∈ (stepEv s e).1, flagCount n ≤ 1 := by
  intro x hx
  cases e with
  | hitEv h t =>
      rcases onHitDetected_cases h t s.1 s.2 with
        ⟨j, d, note, hgetj, hpend, hd, hle, heq⟩ | heq
      · replace hx : x ∈ (onHitDetected h t s.1 s.2).1 := hx
        rw [heq] at hx
        dsimp only at hx
        rcases List.mem_or_eq_of_mem_set hx with hmem | hxeq
        · exact hinv x hmem
        · rw [hxeq]
          exact applyHitToNote_flagCount _ _ _
      · replace hx : x ∈ (onHitDetected h t s.1 s.2).1 := hx
        rw [heq] at hx
        exact hinv x hx
  | sweepEv t =>
      rcases mem_sweep_result t s.1 s.2 x hx with hmem | ⟨m, hm, hxm⟩
      · exact hinv x hmem
      · rw [hxm]
        simp [markMissed, flagCount]

/-- Claim C6: after any interleaving of hit-path and sweep-path calls, every
note still has at most one of correct, wrongInstrument, slightlyOff set. -/
theorem claimC6_mutually_exclusive_flags :
    ∀ (s : List ScheduledNote × TimingStats) (evs : List Event),
      (∀ n ∈ s.1, flagCount n ≤ 1) →
      ∀ n ∈ (runEvents s evs).1, flagCount n ≤ 1 := by
  intro s evs
  induction evs generalizing s with
  | nil =>
      intro h
      exact h
  | cons e es ih =>
      intro h
      exact ih (stepEv s e) (stepEv_flagCount s e h)

/-- Witness for C6: the invariant evaluated after a concrete sweep. -/
theorem claimC6_witness :
    flagCount (markMissed exNote) ≤ 1 :=
  claimC6_mutually_exclusive_flags ([exNote], zeroStats) [Event.sweepEv (3/10)]
    (by decide) (markMissed exNote) (by decide)

/-- Inserting is a permutation of consing. -/
theorem insertByTime_perm (n : ScheduledNote) (l : List ScheduledNote) :
    List.Perm (insertByTime n l) (n :: l) := by
  induction l with
  | nil => exact List.Perm.refl _
  | cons m ms ih =>
      unfold insertByTime
      split
      · exact List.Perm.refl _
      · exact (List.Perm.cons m ih).trans (List.Perm.swap n m ms)

/-- The sort is a permutation of its input. -/
theorem sortByTime_perm (l : List ScheduledNote) : List.Perm (sortByTime l) l := by
  induction l with
  | nil => exact List.Perm.refl _
  | cons n ns ih =>
      exact (insertByTime_perm n (sortByTime ns)).trans (List.Perm.cons n ih)

/-- Inserting into a time-sorted list keeps it time-sorted. -/
theorem pairwise_insertByTime (n : ScheduledNote) (l : List ScheduledNote)
    (h : l.Pairwise timeLE) : (insertByTime n l).Pairwise timeLE := by
  induction l with
  | nil => simp [insertByTime, timeLE]
  | cons m ms ih =>
      rw [List.pairwise_cons] at h
      unfold insertByTime
      split
      · next hle =>
          rw [List.pairwise_cons]
          constructor
          · intro x hx
            rcases List.mem_cons.mp hx with hxm | hxms
            · rw [hxm]
              exact hle
            · exact le_trans hle (h.1 x hxms)
          · exact List.pairwise_cons.mpr h
      · next hgt =>
          rw [List.pairwise_cons]
          constructor
          · intro x hx
            rcases List.mem_cons.mp ((insertByTime_perm n ms).mem_iff.mp hx) with hxn | hxms
            · rw [hxn]
              exact le_of_lt (lt_of_not_le hgt)
            · exact h.1 x hxms
          · exact ih h.2

/-- The sort output is ascending in time. -/
theorem sortByTime_pairwise (l : List ScheduledNote) :
    (sortByTime l).Pairwise timeLE := by
  induction l with
  | nil => exact List.Pairwise.nil
  | cons n ns ih => exact pairwise_insertByTime n (sortByTime ns) ih

/-- Stability of the insertion through an equal-time filter: the freshly
inserted note lands in front of the equal-time notes already present, and
does not disturb the rest. -/
theorem filter_insertByTime (n : ScheduledNote) (q : ℚ) :
    ∀ l : List ScheduledNote,
      (insertByTime n l).filter (fun m => decide (m.time = q)) =
        if n.time = q then n :: l.filter (fun m => decide (m.time = q))
        else l.filter (fun m => decide (m.time = q)) := by
  intro l
  induction l with
  | nil =>
      by_cases hq : n.time = q
      · simp [insertByTime, hq]
      · simp [insertByTime, hq]
  | cons m ms ih =>
      unfold insertByTime
      split
      · next hle =>
          by_cases hq : n.time = q
          · rw [if_pos hq]
            simp [List.filter_cons, hq]
          · rw [if_neg hq]
            simp [List.filter_cons, hq]
      · next hgt =>
          rw [List.filter_cons, ih]
          by_cases hq : n.time = q
          · have hm : ¬ m.time = q := fun hh => hgt (le_of_eq (hq.trans hh.symm))
            simp [List.filter_cons, hq, hm]
          · simp [List.filter_cons, hq]

/-- Stability of the sort: for every time value, the sorted list restricted
to that time equals the input restricted to that time — equal-time notes keep
their input (instrument-enumeration) order. -/
theorem filter_sortByTime (q : ℚ) :
    ∀ l : List ScheduledNote,
      (sortByTime l).filter (fun m => decide (m.time = q)) =
        l.filter (fun m => decide (m.time = q)) := by
  intro l
  induction l with
  | nil => rfl
  | cons n ns ih =>
      show (insertByTime n (sortByTime ns)).filter _ = _
      rw [filter_insertByTime, ih]
      by_cases hq : n.time = q
      · rw [if_pos hq, List.filter_cons]
        simp [hq]
      · rw [if_neg hq, List.filter_cons]
        simp [hq]

/-- Members of the active-step index list are exactly the active positions,
shifted by the running offset. -/
theorem mem_activeStepsFrom :
    ∀ (bs : List Bool) (k j : ℕ), j ∈ activeStepsFrom k bs →
      ∃ i, j = k + i ∧ bs.get? i = some true := by
  intro bs
  induction bs with
  | nil =>
      intro k j h
      cases h
  | cons b bsr ih =>
      intro k j h
      unfold activeStepsFrom at h
      by_cases hb : b = true
      · rw [if_pos hb] at h
        rcases List.mem_cons.mp h with hjk | hrest
        · exact ⟨0, hjk, by rw [hb]; rfl⟩
        · obtain ⟨i, hji, hget⟩ := ih (k + 1) j hrest
          exact ⟨i + 1, by omega, hget⟩
      · rw [if_neg hb] at h
        obtain ⟨i, hji, hget⟩ := ih (k + 1) j h
        exact ⟨i + 1, by omega, hget⟩

/-- Every emitted index is at least the running offset. -/
theorem le_of_mem_activeStepsFrom :
    ∀ (bs : List Bool) (k j : ℕ), j ∈ activeStepsFrom k bs → k ≤ j := by
  intro bs
  induction bs with
  | nil =>
      intro k j h
      cases h
  | cons b bsr ih =>
      intro k j h
      unfold activeStepsFrom at h
      by_cases hb : b = true
      · rw [if_pos hb] at h
        rcases List.mem_cons.mp h with hjk | hrest
        · exact le_of_eq hjk.symm
        · exact le_trans (Nat.le_succ k) (ih (k + 1) j hrest)
      · rw [if_neg hb] at h
        exact le_trans (Nat.le_succ k) (ih (k + 1) j h)

/-- Each step index occurs in the active list exactly as often as the step is
active: once or never. -/
theorem countP_activeStepsFrom :
    ∀ (bs : List Bool) (k i : ℕ),
      (activeStepsFrom k bs).countP (fun j => decide (j = k + i)) =
        if bs.get? i = some true then 1 else 0 := by
  intro bs
  induction bs with
  | nil =>
      intro k i
      simp [activeStepsFrom]
  | cons b bsr ih =>
      intro k i
      unfold activeStepsFrom
      have hz : (activeStepsFrom (k + 1) bsr).countP (fun j => decide (j = k)) = 0 := by
        rw [List.countP_eq_zero]
        intro j hj
        have hk := le_of_mem_activeStepsFrom bsr (k + 1) j hj
        simp only [decide_eq_true_eq]
        omega
      cases i with
      | zero =>
          by_cases hb : b = true
          · rw [if_pos hb, List.countP_cons]
            have h1 : (activeStepsFrom (k + 1) bsr).countP (fun j => decide (j = k + 0)) = 0 := hz
            rw [h1]
            simp [hb]
          · rw [if_neg hb]
            have h1 : (activeStepsFrom (k + 1) bsr).countP (fun j => decide (j = k + 0)) = 0 := hz
            rw [h1]
            have hbf : b = false := by
              cases b
              · rfl
              · exact absurd rfl hb
            simp [hbf]
      | succ i0 =>
          have harith : k + (i0 + 1) = (k + 1) + i0 := by omega
          by_cases hb : b = true
          · rw [if_pos hb, List.countP_cons]
            simp only [harith, ih (k + 1) i0]
            have hk : ¬ (k = (k + 1) + i0) := by omega
            simp [hk]
          · rw [if_neg hb]
            simp only [harith, ih (k + 1) i0]
            rfl

/-- How many notes of one track match a given instrument and step. -/
theorem countP_trackNotes (inst0 inst : String) (sd : ℚ) (bs : List Bool) (i : ℕ) :
    (trackNotes inst0 sd bs).countP (fun nt => decide (nt.instrument = inst ∧ nt.step = i)) =
      if inst0 = inst ∧ bs.get? i = some true then 1 else 0 := by
  unfold trackNotes
  rw [List.countP_map]
  by_cases hinst : inst0 = inst
  · have h1 : ((fun nt => decide (nt.instrument = inst ∧ nt.step = i)) ∘
        (fun j => mkNote inst0 j sd)) = fun j => decide (j = i) := by
      funext j
      simp [mkNote, hinst]
    rw [h1]
    have h2 := countP_activeStepsFrom bs 0 i
    simp only [Nat.zero_add] at h2
    rw [h2]
    simp [hinst]
  · have h1 : ∀ j ∈ activeStepsFrom 0 bs,
        ¬ ((fun nt => decide (nt.instrument = inst ∧ nt.step = i)) ∘
          (fun j => mkNote inst0 j sd)) j = true := by
      intro j _
      simp [mkNote, hinst]
    rw [List.countP_eq_zero.mpr h1]
    simp [hinst]

/-- An instrument absent from the key list contributes no matching note. -/
theorem countP_buildNotes_zero (bpm : ℚ) (inst : String) (i : ℕ) :
    ∀ ps : List (String × List Bool), inst ∉ ps.map Prod.fst →
      (buildNotes bpm ps).countP
        (fun nt => decide (nt.instrument = inst ∧ nt.step = i)) = 0 := by
  intro ps
  induction ps with
  | nil =>
      intro _
      rfl
  | cons p pr ih =>
      intro hmem
      simp only [List.map_cons, List.mem_cons, not_or] at hmem
      unfold buildNotes
      have hcond : ¬ (p.1 = inst ∧ p.2.get? i = some true) := fun hc => hmem.1 hc.1.symm
      rw [List.countP_append, countP_trackNotes, if_neg hcond, ih hmem.2]

/-- With distinct instrument keys, an active step of a listed instrument is
matched by exactly one generated note. -/
theorem countP_buildNotes_one (bpm : ℚ) (inst : String) (steps : List Bool) (i : ℕ)
    (hact : steps.get? i = some true) :
    ∀ ps : List (String × List Bool), (ps.map Prod.fst).Nodup → (inst, steps) ∈ ps →
      (buildNotes bpm ps).countP
        (fun nt => decide (nt.instrument = inst ∧ nt.step = i)) = 1 := by
  intro ps
  induction ps with
  | nil =>
      intro _ hmem
      cases hmem
  | cons p pr ih =>
      intro hnd hmem
      rw [List.map_cons, List.nodup_cons] at hnd
      unfold buildNotes
      rw [List.countP_append]
      rcases List.mem_cons.mp hmem with hp | hpr
      · cases hp.symm
        rw [countP_trackNotes, if_pos ⟨rfl, hact⟩,
          countP_buildNotes_zero bpm inst i pr hnd.1]
      · have h1 : p.1 ≠ inst := by
          intro hh
          exact hnd.1 (hh.symm ▸ List.mem_map_of_mem Prod.fst hpr)
        rw [countP_trackNotes, if_neg (fun hc => h1 hc.1), ih hnd.2 hpr]

/-- Membership in the unsorted build: every note comes from an active step of
a listed track. -/
theorem mem_buildNotes (bpm : ℚ) (nt : ScheduledNote) :
    ∀ ps : List (String × List Bool), nt ∈ buildNotes bpm ps →
      ∃ p, p ∈ ps ∧ ∃ j, j ∈ activeStepsFrom 0 p.2 ∧ nt = mkNote p.1 j (60 / bpm / 4) := by
  intro ps
  induction ps with
  | nil =>
      intro h
      cases h
  | cons p pr ih =>
      intro h
      unfold buildNotes at h
      rcases List.mem_append.mp h with h1 | h2
      · unfold trackNotes at h1
        obtain ⟨j, hj, hnt⟩ := List.mem_map.mp h1
        exact ⟨p, List.mem_cons_self p pr, j, hj, hnt.symm⟩
      · obtain ⟨p0, hp0, rest⟩ := ih h2
        exact ⟨p0, List.mem_cons_of_mem p hp0, rest⟩

/-- Claim C9: `generateScheduledNotes` emits one note per active step — time
stepIndex·(60/bpm/4), all four result flags false — as a permutation of the
enumeration-ordered build; with distinct instrument keys each active step is
matched by exactly one note; the output is ascending in time; and equal-time
notes keep the enumeration order (filter-stability against the unsorted
build). -/
theorem claimC9_schedule_generation :
    ∀ (pattern : List (String × List Bool)) (bpm : ℚ), 0 < bpm →
      List.Perm (generateScheduledNotes pattern bpm) (buildNotes bpm pattern) ∧
      (∀ nt ∈ generateScheduledNotes pattern bpm,
        nt.hit = false ∧ nt.correct = false ∧ nt.wrongInstrument = false ∧
        nt.slightlyOff = false ∧ nt.time = (nt.step : ℚ) * (60 / bpm / 4) ∧
        ∃ steps, (nt.instrument, steps) ∈ pattern ∧ steps.get? nt.step = some true) ∧
      ((pattern.map Prod.fst).Nodup →
        ∀ inst steps, (inst, steps) ∈ pattern → ∀ i, steps.get? i = some true →
          (generateScheduledNotes pattern bpm).countP
            (fun nt => decide (nt.instrument = inst ∧ nt.step = i)) = 1) ∧
      List.Pairwise timeLE (generateScheduledNotes pattern bpm) ∧
      (∀ q : ℚ,
        (generateScheduledNotes pattern bpm).filter (fun nt => decide (nt.time = q)) =
          (buildNotes bpm pattern).filter (fun nt => decide (nt.time = q))) := by
  intro pattern bpm hbpm
  refine ⟨sortByTime_perm _, ?_, ?_, sortByTime_pairwise _,
    fun q => filter_sortByTime q _⟩
  · intro nt hnt
    have hmem : nt ∈ buildNotes bpm pattern :=
      (sortByTime_perm (buildNotes bpm pattern)).mem_iff.mp hnt
    obtain ⟨p, hp, j, hj, hnt_eq⟩ := mem_buildNotes bpm nt pattern hmem
    obtain ⟨i0, hji, hget⟩ := mem_activeStepsFrom p.2 0 j hj
    subst hnt_eq
    refine ⟨rfl, rfl, rfl, rfl, rfl, p.2, ?_, ?_⟩
    · simpa using hp
    · have hj0 : j = i0 := by omega
      rw [show (mkNote p.1 j (60 / bpm / 4)).step = j from rfl, hj0]
      exact hget
  · intro hnd inst steps hmem i hact
    show (sortByTime (buildNotes bpm pattern)).countP
      (fun nt => decide (nt.instrument = inst ∧ nt.step = i)) = 1
    rw [(sortByTime_perm (buildNotes bpm pattern)).countP_eq]
    exact countP_buildNotes_one bpm inst steps i hact pattern hnd hmem

/-- Witness for C9 at a concrete pattern and bpm. -/
theorem claimC9_witness :
    (generateScheduledNotes [("kick", [true, false]), ("hihat", [true, true])] 60).countP
      (fun nt => decide (nt.instrument = "hihat" ∧ nt.step = 1)) = 1 :=
  (claimC9_schedule_generation [("kick", [true, false]), ("hihat", [true, true])] 60
    (by norm_num)).2.2.1 (by decide) "hihat" [true, true] (by decide) 1 (by decide)

end DrumBeat
